import Mathlib

/-!
Shallow embedding of `src/SchemaService.js` (a versioned schema registry for
spreadsheet-style tables) and verification of the specification's claims.

Modelling conventions:
* A JavaScript plain object with string keys is modelled as an association
  list `List (String × α)` with unique keys maintained by `objSet`
  (assignment replaces the value in place, preserving key order, or appends
  a fresh key at the end — JS insertion-order semantics for string keys).
* Reading a missing property (`undefined`) is modelled by `Option`:
  `objGet l k = none` corresponds to `l[k] === undefined`.
* The registry state is the pair of the mutable members `schemas` and
  `currentVersions` of the `SchemaService` object.  The initial contents
  come from an external `CONFIG` object (out of scope per the spec), so all
  theorems quantify over arbitrary registry states.
* Thrown JS `Error`s (the spec's `NotFoundError`) are modelled by
  `Except String`; the string is the error message from the source.
* Mutators return `RegistryState × Except String Unit`: the first component
  is the state after the call, including the state at the moment a throw
  happens, so atomicity is expressible.  Read operations are wrapped the
  same way; their bodies contain no state update because the corresponding
  JS methods perform no assignment.
* `console.log` and the optional `EventBus.emit` notification in `addField`
  do not touch the registry state and are not modelled (the spec treats the
  event sink as an external collaborator).
-/

namespace SchemaService

/-- Models JavaScript `String.prototype.trim`: removes leading and trailing
whitespace characters. -/
def jsTrim (s : String) : String :=
  String.mk (((s.data.dropWhile Char.isWhitespace).reverse.dropWhile Char.isWhitespace).reverse)

/-- A schema: ordered field-name → header-label mapping (a JS object). -/
abbrev Schema := List (String × String)

/-- Property read on a JS object: first binding of the key, `none` models
`undefined`. -/
def objGet {α : Type} : List (String × α) → String → Option α
  | [], _ => none
  | (k', v) :: rest, k => if k' = k then some v else objGet rest k

/-- Property assignment on a JS object: replaces the value at an existing
key in place, otherwise appends the new key at the end. -/
def objSet {α : Type} : List (String × α) → String → α → List (String × α)
  | [], k, v => [(k, v)]
  | (k', v') :: rest, k, v =>
      if k' = k then (k, v) :: rest else (k', v') :: objSet rest k v

/-- The mutable state of the `SchemaService` singleton: per-table version
maps (`schemas`) and per-table active-version pointers (`currentVersions`). -/
structure RegistryState where
  schemas : List (String × List (String × Schema))
  currentVersions : List (String × String)
deriving DecidableEq

/-- Result record of `detectSchemaChanges`. -/
structure SchemaDiff where
  missing : List String
  extra : List String
  hasChanges : Bool
deriving DecidableEq

/-- The body of `getSchema` after reading `currentVersions[sheetName]` and
`schemas[sheetName]`:
`if (!version || !this.schemas[sheetName]) throw ...; return this.schemas[sheetName][version]`.
A `String` is falsy in JS exactly when it is empty, so `some ""` fails the
guard like `undefined` does.  The returned `Option Schema` models that the
source does not check `this.schemas[sheetName][version]` for presence: a
dangling active version yields `undefined` (here `none`) without a throw. -/
def resolveActive (sheetName : String) (version : Option String)
    (tableVersions : Option (List (String × Schema))) : Except String (Option Schema) :=
  match version, tableVersions with
  | some v, some vm =>
      if v = "" then .error ("Schema not found for sheet: " ++ sheetName)
      else .ok (objGet vm v)
  | _, _ => .error ("Schema not found for sheet: " ++ sheetName)

/-- `getSchema(sheetName)` from the source, as a pure function of the state. -/
def getSchemaFn (st : RegistryState) (sheetName : String) : Except String (Option Schema) :=
  resolveActive sheetName (objGet st.currentVersions sheetName) (objGet st.schemas sheetName)

/-- `getHeaders(sheetName)`: `Object.values(this.getSchema(sheetName))`.
`Object.values(undefined)` throws a `TypeError` in JS, modelled by the
error branch on `ok none`. -/
def getHeadersFn (st : RegistryState) (sheetName : String) : Except String (List String) :=
  match getSchemaFn st sheetName with
  | .error e => .error e
  | .ok none => .error "TypeError: Cannot convert undefined or null to object"
  | .ok (some s) => .ok (s.map Prod.snd)

/-- `_getReverseSchema(schema)`: builds `reverse[header] = field` from
`Object.entries(schema)` in order.  Note: the source does NOT trim the
header label here; labels are used verbatim as lookup keys.  The guard
clause for an `undefined` schema returns the empty object. -/
def reverseSchemaOf (schema : Option Schema) : List (String × String) :=
  match schema with
  | none => []
  | some s => s.foldl (fun acc fh => objSet acc fh.2 fh.1) []

/-- Array indexing `rowData[index]` on a row of optional cells: out-of-range
reads give `undefined` (`none`), as does an explicitly absent cell. -/
def jsIndex {α : Type} (l : List (Option α)) (i : Nat) : Option α :=
  match l.get? i with
  | some v => v
  | none => none

/-- The `headers.forEach((header, index) => ...)` loop of `mapRowToObject`:
for each header, trim it, look it up in the reverse schema, and if a field
is found (and is truthy, i.e. nonempty) and `rowData[index] !== undefined`,
assign `mappedData[fieldName] = rowData[index]`. -/
def mapRowGo (reverse : List (String × String)) (rowData : List (Option String)) :
    Nat → List String → List (String × String) → List (String × String)
  | _, [], acc => acc
  | i, hdr :: rest, acc =>
      mapRowGo reverse rowData (i + 1) rest
        (match objGet reverse (jsTrim hdr), jsIndex rowData i with
         | some fieldName, some v => if fieldName = "" then acc else objSet acc fieldName v
         | _, _ => acc)

/-- `mapRowToObject(sheetName, headers, rowData)` from the source.  A row
cell is `Option String`: `none` models an absent (`undefined`) cell, while
`some ""` is an explicit empty string (present). -/
def mapRowToObjectFn (st : RegistryState) (sheetName : String) (headers : List String)
    (rowData : List (Option String)) : Except String (List (String × String)) :=
  match getSchemaFn st sheetName with
  | .error e => .error e
  | .ok schema => .ok (mapRowGo (reverseSchemaOf schema) rowData 0 headers [])

/-- `detectSchemaChanges(sheetName, actualHeaders)` from the source.  JS
`Set`s are modelled by `List.dedup` of the underlying lists: `Set.has` is
list membership, `Set.size` is the deduplicated length, and spreading the
set iterates over its (deduplicated) elements. -/
def detectSchemaChangesFn (st : RegistryState) (sheetName : String)
    (actualHeaders : List String) : Except String SchemaDiff :=
  match getHeadersFn st sheetName with
  | .error e => .error e
  | .ok expectedHeaders =>
      let actualSetList := (actualHeaders.map jsTrim).dedup
      let expectedSetList := expectedHeaders.dedup
      .ok
        { missing := expectedHeaders.filter (fun h => !(actualSetList.contains h))
          extra := actualHeaders.filter (fun h => !(expectedSetList.contains (jsTrim h)))
          hasChanges := (actualSetList.length != expectedSetList.length) ||
            actualSetList.any (fun h => !(expectedSetList.contains h)) }

/-- `addField(sheetName, fieldName, headerName, newVersion)` from the
source.  When `currentVersions[sheetName]` is absent or dangling, the JS
spread `{...undefined, [fieldName]: headerName}` produces a one-entry
object, modelled by `Option.getD currentSchema []`. -/
def addFieldOp (st : RegistryState) (sheetName fieldName headerName newVersion : String) :
    RegistryState × Except String Unit :=
  match objGet st.schemas sheetName with
  | none => (st, .error ("Sheet schema not found: " ++ sheetName))
  | some tableVersions =>
      let currentVersion := objGet st.currentVersions sheetName
      let currentSchema : Option Schema :=
        match currentVersion with
        | none => none
        | some v => objGet tableVersions v
      let newSchema := objSet (currentSchema.getD []) fieldName headerName
      ({ st with schemas := objSet st.schemas sheetName (objSet tableVersions newVersion newSchema) },
       .ok ())

/-- `setVersion(sheetName, version)` from the source.  The guard
`!this.schemas[sheetName] || !this.schemas[sheetName][version]` throws when
the table is unknown or the version key is absent; a present schema object
is always truthy. -/
def setVersionOp (st : RegistryState) (sheetName version : String) :
    RegistryState × Except String Unit :=
  match objGet st.schemas sheetName with
  | none => (st, .error ("Schema version " ++ version ++ " not found for sheet: " ++ sheetName))
  | some tableVersions =>
      match objGet tableVersions version with
      | none => (st, .error ("Schema version " ++ version ++ " not found for sheet: " ++ sheetName))
      | some _ =>
          ({ st with currentVersions := objSet st.currentVersions sheetName version }, .ok ())

/-- `getSchema` as a state-passing call: the method reads `this` and
performs no assignment, so the state component is the input state. -/
def getSchemaOp (st : RegistryState) (sheetName : String) :
    RegistryState × Except String (Option Schema) :=
  (st, getSchemaFn st sheetName)

/-- `getHeaders` as a state-passing call (no assignment in the source). -/
def getHeadersOp (st : RegistryState) (sheetName : String) :
    RegistryState × Except String (List String) :=
  (st, getHeadersFn st sheetName)

/-- `mapRowToObject` as a state-passing call (no assignment in the source). -/
def mapRowToObjectOp (st : RegistryState) (sheetName : String) (headers : List String)
    (rowData : List (Option String)) : RegistryState × Except String (List (String × String)) :=
  (st, mapRowToObjectFn st sheetName headers rowData)

/-- `detectSchemaChanges` as a state-passing call (no assignment in the source). -/
def detectSchemaChangesOp (st : RegistryState) (sheetName : String)
    (actualHeaders : List String) : RegistryState × Except String SchemaDiff :=
  (st, detectSchemaChangesFn st sheetName actualHeaders)

/-- The spec's data-model invariant: every recorded active-version pointer
references an existing entry of that table's version set. -/
def Invariant (st : RegistryState) : Prop :=
  ∀ T v, objGet st.currentVersions T = some v →
    ∃ vm, objGet st.schemas T = some vm ∧ (objGet vm v).isSome

/-! ### Concrete registry states used as test inputs

The initial contents of `schemas`/`currentVersions` in the source come from
the external `CONFIG` object, so any concrete state is a legitimate
instance; these small ones exercise the claims. -/

/-- One table `T`, active version `v1`, schema `{f1: "h1"}`. -/
def stateOneField : RegistryState :=
  ⟨[("T", [("v1", [("f1", "h1")])])], [("T", "v1")]⟩

/-- One table `T`, active version `v1`, schema `{f1: "h1", f2: "h2"}`. -/
def stateTwoFields : RegistryState :=
  ⟨[("T", [("v1", [("f1", "h1"), ("f2", "h2")])])], [("T", "v1")]⟩

/-- One table `T`, active version `v1`, schema `{f: " x "}` — the header
label carries surrounding whitespace. -/
def statePaddedHeader : RegistryState :=
  ⟨[("T", [("v1", [("f", " x ")])])], [("T", "v1")]⟩

/-- One table `T`, active version `v1`, schema `{f1: " h1 "}` — padded
label, for probing the reverse lookup. -/
def statePaddedLabel : RegistryState :=
  ⟨[("T", [("v1", [("f1", " h1 ")])])], [("T", "v1")]⟩

/-- One table `T` whose version set has only `v1` but whose active-version
pointer records `v2`: a dangling pointer (violates the documented
invariant, but is a representable registry state). -/
def stateDangling : RegistryState :=
  ⟨[("T", [("v1", [("f", "h")])])], [("T", "v2")]⟩

/-! ### Helper lemmas about the JS-object model -/

theorem objGet_objSet_self {α : Type} (l : List (String × α)) (k : String) (v : α) :
    objGet (objSet l k v) k = some v := by
  induction l with
  | nil => simp [objGet, objSet]
  | cons p rest ih =>
      by_cases h : p.1 = k
      · simp [objSet, objGet, h]
      · simpa [objSet, objGet, h] using ih

theorem objGet_objSet_ne {α : Type} (l : List (String × α)) {k' k : String} (v : α)
    (h : k' ≠ k) : objGet (objSet l k' v) k = objGet l k := by
  induction l with
  | nil => simp [objGet, objSet, h]
  | cons p rest ih =>
      by_cases hp : p.1 = k'
      · simp [objSet, objGet, hp, h]
      · by_cases hk : p.1 = k
        · simp [objSet, objGet, hp, hk, Ne.symm h]
        · simpa [objSet, objGet, hp, hk] using ih

theorem mem_objSet_self {α : Type} (l : List (String × α)) (k : String) (v : α) :
    (k, v) ∈ objSet l k v := by
  induction l with
  | nil => simp [objSet]
  | cons p rest ih =>
      by_cases h : p.1 = k
      · simp [objSet, h]
      · simp only [objSet, if_neg h, List.mem_cons]
        exact Or.inr ih

theorem objSet_eq_append {α : Type} {l : List (String × α)} {k : String} (v : α)
    (h : objGet l k = none) : objSet l k v = l ++ [(k, v)] := by
  induction l with
  | nil => simp [objSet]
  | cons p rest ih =>
      by_cases hp : p.1 = k
      · simp [objGet, hp] at h
      · simp only [objGet, if_neg hp] at h
        simp [objSet, hp, ih h]

theorem objGet_append_left_none {α : Type} {l₁ : List (String × α)} (l₂ : List (String × α))
    {k : String} (h : objGet l₁ k = none) : objGet (l₁ ++ l₂) k = objGet l₂ k := by
  induction l₁ with
  | nil => simp
  | cons p rest ih =>
      by_cases hp : p.1 = k
      · simp [objGet, hp] at h
      · simp only [objGet, if_neg hp] at h
        simpa [objGet, hp] using ih h

theorem mem_of_objGet_eq_some {α : Type} {l : List (String × α)} {k : String} {v : α}
    (h : objGet l k = some v) : (k, v) ∈ l := by
  induction l with
  | nil => simp [objGet] at h
  | cons p rest ih =>
      by_cases hp : p.1 = k
      · simp only [objGet, if_pos hp] at h
        cases h
        simp only [List.mem_cons]
        exact Or.inl (by cases p; simp_all)
      · simp only [objGet, if_neg hp] at h
        exact List.mem_cons_of_mem _ (ih h)

theorem objGet_of_mem_of_nodupKeys {α : Type} {l : List (String × α)} {k : String} {v : α}
    (hnd : (l.map Prod.fst).Nodup) (hm : (k, v) ∈ l) : objGet l k = some v := by
  induction l with
  | nil => simp at hm
  | cons p rest ih =>
      simp only [List.map_cons, List.nodup_cons] at hnd
      rcases List.mem_cons.mp hm with h | h
      · subst h
        simp [objGet]
      · have hk : p.1 ≠ k := by
          intro he
          exact hnd.1 (he ▸ List.mem_map_of_mem Prod.fst h)
        simp only [objGet, if_neg hk]
        exact ih hnd.2 h

theorem objGet_eq_some_iff {α : Type} {l : List (String × α)} {k : String} {v : α}
    (hnd : (l.map Prod.fst).Nodup) : objGet l k = some v ↔ (k, v) ∈ l :=
  ⟨mem_of_objGet_eq_some, objGet_of_mem_of_nodupKeys hnd⟩

theorem value_eq_of_mem_of_nodupKeys {α : Type} {l : List (String × α)} {k : String} {a b : α}
    (hnd : (l.map Prod.fst).Nodup) (ha : (k, a) ∈ l) (hb : (k, b) ∈ l) : a = b := by
  have h1 := objGet_of_mem_of_nodupKeys hnd ha
  have h2 := objGet_of_mem_of_nodupKeys hnd hb
  rw [h1] at h2
  exact Option.some_injective _ h2

theorem objGet_objSet_isSome {α : Type} (l : List (String × α)) {k : String} (k' : String)
    (v : α) (h : (objGet l k).isSome) : (objGet (objSet l k' v) k).isSome := by
  by_cases he : k' = k
  · subst he
    simp [objGet_objSet_self]
  · rwa [objGet_objSet_ne l v he]

/-- `List.contains` on strings agrees with list membership. -/
theorem contains_iff_mem (l : List String) (a : String) : l.contains a = true ↔ a ∈ l := by
  induction l with
  | nil => simp
  | cons x xs ih =>
      simp only [List.contains_cons, Bool.or_eq_true, beq_iff_eq, List.mem_cons, ih]

/-! ### The reverse schema as a function of the schema -/

theorem reverse_foldl (s : Schema) :
    ∀ acc : List (String × String), (s.map Prod.snd).Nodup →
      (∀ fh ∈ s, objGet acc fh.2 = none) →
      s.foldl (fun acc fh => objSet acc fh.2 fh.1) acc
        = acc ++ s.map (fun fh => (fh.2, fh.1)) := by
  induction s with
  | nil => intro acc _ _; simp
  | cons fh rest ih =>
      intro acc hnd hacc
      simp only [List.map_cons, List.nodup_cons] at hnd
      have hfresh : objGet acc fh.2 = none := hacc fh (List.mem_cons_self _ _)
      have hstep : objSet acc fh.2 fh.1 = acc ++ [(fh.2, fh.1)] := objSet_eq_append _ hfresh
      have hacc2 : ∀ fh' ∈ rest, objGet (acc ++ [(fh.2, fh.1)]) fh'.2 = none := by
        intro fh' hm
        have hne : fh.2 ≠ fh'.2 := by
          intro he
          exact hnd.1 (he ▸ List.mem_map_of_mem Prod.snd hm)
        rw [objGet_append_left_none _ (hacc fh' (List.mem_cons_of_mem _ hm))]
        simp [objGet, hne]
      calc (fh :: rest).foldl (fun acc fh => objSet acc fh.2 fh.1) acc
          = rest.foldl (fun acc fh => objSet acc fh.2 fh.1) (acc ++ [(fh.2, fh.1)]) := by
            simp [List.foldl_cons, hstep]
        _ = (acc ++ [(fh.2, fh.1)]) ++ rest.map (fun fh => (fh.2, fh.1)) := ih _ hnd.2 hacc2
        _ = acc ++ (fh :: rest).map (fun fh => (fh.2, fh.1)) := by simp

/-- With pairwise-distinct header labels, `_getReverseSchema` is exactly the
schema with each pair swapped (label → field), in order. -/
theorem reverseSchemaOf_eq (s : Schema) (hlabels : (s.map Prod.snd).Nodup) :
    reverseSchemaOf (some s) = s.map (fun fh => (fh.2, fh.1)) := by
  simpa using reverse_foldl s [] hlabels (by intro fh _; simp [objGet])

/-- With pairwise-distinct header labels, looking up a key in the reverse
schema finds exactly the field whose label is — verbatim, untrimmed — that
key. -/
theorem objGet_reverse_iff {s : Schema} (hlabels : (s.map Prod.snd).Nodup)
    (key f : String) :
    objGet (reverseSchemaOf (some s)) key = some f ↔ (f, key) ∈ s := by
  have hknd : ((s.map (fun fh => (fh.2, fh.1))).map Prod.fst).Nodup := by
    simpa [List.map_map, Function.comp] using hlabels
  rw [reverseSchemaOf_eq s hlabels, objGet_eq_some_iff hknd]
  constructor
  · rintro hm
    rcases List.mem_map.mp hm with ⟨⟨a, b⟩, hab, he⟩
    cases he
    exact hab
  · intro hm
    exact List.mem_map.mpr ⟨(f, key), hm, rfl⟩

/-! ### Characterizing the `mapRowToObject` loop -/

theorem exists_get_cons {α : Type} (x : α) (l : List α) (P : Nat → α → Prop) :
    (∃ j y, (x :: l).get? j = some y ∧ P j y) ↔
      (P 0 x ∨ ∃ j y, l.get? j = some y ∧ P (j + 1) y) := by
  constructor
  · rintro ⟨j, y, hj, hP⟩
    cases j with
    | zero =>
        simp only [List.get?] at hj
        cases hj
        exact Or.inl hP
    | succ j => exact Or.inr ⟨j, y, by simpa [List.get?] using hj, hP⟩
  · rintro (hP | ⟨j, y, hj, hP⟩)
    · exact ⟨0, x, rfl, hP⟩
    · exact ⟨j + 1, y, by simpa [List.get?] using hj, hP⟩

/-- What the `headers.forEach` loop of `mapRowToObject` produces, read back
through `objGet`: provided the reverse lookup is injective (distinct labels
and fields) and the trimmed headers are pairwise distinct, field `f` ends
up bound to value `v` iff some position `j` carries a header whose trimmed
form resolves to `f` (nonempty) and whose row cell is present with value
`v` — or `f ↦ v` was already in the accumulator and is never reassigned. -/
theorem mapRowGo_objGet (rev : List (String × String)) (row : List (Option String))
    (hrevinj : ∀ a b f, objGet rev a = some f → objGet rev b = some f → a = b) :
    ∀ (hdrs : List String) (i : Nat) (acc : List (String × String)),
      (hdrs.map jsTrim).Nodup →
      (∀ hdr ∈ hdrs, ∀ f, objGet rev (jsTrim hdr) = some f → f ≠ "" → objGet acc f = none) →
      ∀ f v, objGet (mapRowGo rev row i hdrs acc) f = some v ↔
        (objGet acc f = some v ∨
         ∃ j hdr, hdrs.get? j = some hdr ∧ objGet rev (jsTrim hdr) = some f ∧ f ≠ "" ∧
           jsIndex row (i + j) = some v) := by
  intro hdrs
  induction hdrs with
  | nil =>
      intro i acc _ _ f v
      simp [mapRowGo, List.get?]
  | cons hdr rest ih =>
      intro i acc hnd hdisj f v
      simp only [List.map_cons, List.nodup_cons] at hnd
      have hrest := fun hdr' hm f' h1 h2 => hdisj hdr' (List.mem_cons_of_mem _ hm) f' h1 h2
      rw [exists_get_cons hdr rest
        (fun j y => objGet rev (jsTrim y) = some f ∧ f ≠ "" ∧ jsIndex row (i + j) = some v)]
      have hshift : ∀ j, i + (j + 1) = (i + 1) + j := by intro j; omega
      rcases hrv : objGet rev (jsTrim hdr) with _ | f₀
      · -- header not in the schema: position skipped
        have hstep : mapRowGo rev row i (hdr :: rest) acc = mapRowGo rev row (i + 1) rest acc := by
          simp only [mapRowGo]
          rw [hrv]
        rw [hstep, ih (i + 1) acc hnd.2 hrest f v]
        constructor
        · rintro (h | ⟨j, y, hj, h1, h2, h3⟩)
          · exact Or.inl h
          · exact Or.inr (Or.inr ⟨j, y, hj, h1, h2, by rw [hshift j]; exact h3⟩)
        · rintro (h | ⟨⟨h1, _, _⟩ | ⟨j, y, hj, h1, h2, h3⟩⟩)
          · exact Or.inl h
          · exact Option.noConfusion h1
          · exact Or.inr ⟨j, y, hj, h1, h2, by rw [← hshift j]; exact h3⟩
      · rcases hrow : jsIndex row i with _ | v₀
        · -- row cell absent: position skipped
          have hstep : mapRowGo rev row i (hdr :: rest) acc
              = mapRowGo rev row (i + 1) rest acc := by
            simp only [mapRowGo]
            rw [hrv, hrow]
          rw [hstep, ih (i + 1) acc hnd.2 hrest f v]
          constructor
          · rintro (h | ⟨j, y, hj, h1, h2, h3⟩)
            · exact Or.inl h
            · exact Or.inr (Or.inr ⟨j, y, hj, h1, h2, by rw [hshift j]; exact h3⟩)
          · rintro (h | ⟨⟨_, _, h3⟩ | ⟨j, y, hj, h1, h2, h3⟩⟩)
            · exact Or.inl h
            · rw [Nat.add_zero, hrow] at h3; cases h3
            · exact Or.inr ⟨j, y, hj, h1, h2, by rw [← hshift j]; exact h3⟩
        · by_cases hf0 : f₀ = ""
          · -- falsy (empty) field name: position skipped
            have hstep : mapRowGo rev row i (hdr :: rest) acc
                = mapRowGo rev row (i + 1) rest acc := by
              simp only [mapRowGo]
              rw [hrv, hrow]
              simp [hf0]
            rw [hstep, ih (i + 1) acc hnd.2 hrest f v]
            constructor
            · rintro (h | ⟨j, y, hj, h1, h2, h3⟩)
              · exact Or.inl h
              · exact Or.inr (Or.inr ⟨j, y, hj, h1, h2, by rw [hshift j]; exact h3⟩)
            · rintro (h | ⟨⟨h1, h2, _⟩ | ⟨j, y, hj, h1, h2, h3⟩⟩)
              · exact Or.inl h
              · cases h1
                exact absurd hf0 h2
              · exact Or.inr ⟨j, y, hj, h1, h2, by rw [← hshift j]; exact h3⟩
          · -- the position assigns mappedData[f₀] = v₀
            have hstep : mapRowGo rev row i (hdr :: rest) acc
                = mapRowGo rev row (i + 1) rest (objSet acc f₀ v₀) := by
              simp only [mapRowGo]
              rw [hrv, hrow]
              simp [hf0]
            have hdisj2 : ∀ hdr' ∈ rest, ∀ f', objGet rev (jsTrim hdr') = some f' → f' ≠ "" →
                objGet (objSet acc f₀ v₀) f' = none := by
              intro hdr' hm f' h1 h2
              by_cases he : f' = f₀
              · subst he
                have := hrevinj _ _ _ h1 hrv
                exact absurd (this ▸ List.mem_map_of_mem jsTrim hm) hnd.1
              · rw [objGet_objSet_ne acc v₀ (Ne.symm he)]
                exact hrest hdr' hm f' h1 h2
            rw [hstep, ih (i + 1) (objSet acc f₀ v₀) hnd.2 hdisj2 f v]
            have hnotrest : ∀ j y, rest.get? j = some y →
                objGet rev (jsTrim y) = some f₀ → False := by
              intro j y hj h1
              have hm : y ∈ rest := List.get?_mem hj
              have := hrevinj _ _ _ h1 hrv
              exact hnd.1 (this ▸ List.mem_map_of_mem jsTrim hm)
            by_cases hff : f = f₀
            · subst hff
              have haccn : objGet acc f = none := hdisj hdr (List.mem_cons_self _ _) f hrv hf0
              rw [objGet_objSet_self]
              constructor
              · rintro (h | ⟨j, y, hj, h1, _, _⟩)
                · cases h
                  exact Or.inr (Or.inl ⟨rfl, hf0, by rw [Nat.add_zero, hrow]⟩)
                · exact absurd h1 (fun h1 => hnotrest j y hj h1)
              · rintro (h | ⟨⟨_, _, h3⟩ | ⟨j, y, hj, h1, _, _⟩⟩)
                · rw [haccn] at h; cases h
                · rw [Nat.add_zero, hrow] at h3
                  cases h3
                  exact Or.inl rfl
                · exact absurd h1 (fun h1 => hnotrest j y hj h1)
            · rw [objGet_objSet_ne acc v₀ (Ne.symm hff)]
              constructor
              · rintro (h | ⟨j, y, hj, h1, h2, h3⟩)
                · exact Or.inl h
                · exact Or.inr (Or.inr ⟨j, y, hj, h1, h2, by rw [hshift j]; exact h3⟩)
              · rintro (h | ⟨⟨h1, _, _⟩ | ⟨j, y, hj, h1, h2, h3⟩⟩)
                · exact Or.inl h
                · cases h1
                  exact absurd rfl hff
                · exact Or.inr ⟨j, y, hj, h1, h2, by rw [← hshift j]; exact h3⟩

/-- Deduplication does not change `Set.has`-style membership tests. -/
theorem dedup_contains (l : List String) (a : String) :
    l.dedup.contains a = l.contains a := by
  rw [Bool.eq_iff_iff, contains_iff_mem, contains_iff_mem, List.mem_dedup]

theorem map_self_of_fix {l : List String} {f : String → String}
    (h : ∀ a ∈ l, f a = a) : l.map f = l := by
  induction l with
  | nil => rfl
  | cons x xs ih =>
      simp only [List.map_cons, List.cons.injEq]
      exact ⟨h x (List.mem_cons_self _ _), ih fun a ha => h a (List.mem_cons_of_mem _ ha)⟩

/-! ### Claims -/

/-- C10: the read operations `getSchema`, `getHeaders`, `mapRowToObject`
and `detectSchemaChanges` never modify the registry state: for every state
and input, the state component of the call is the input state (the source
methods contain no assignment to `this.schemas`/`this.currentVersions`),
whether the result is a value or an error. -/
theorem C10_reads_do_not_mutate (st : RegistryState) :
    (∀ T, (getSchemaOp st T).1 = st) ∧
    (∀ T, (getHeadersOp st T).1 = st) ∧
    (∀ T hs rs, (mapRowToObjectOp st T hs rs).1 = st) ∧
    (∀ T hs, (detectSchemaChangesOp st T hs).1 = st) :=
  ⟨fun _ => rfl, fun _ => rfl, fun _ _ _ => rfl, fun _ _ => rfl⟩

/-- C8: `addField` and `setVersion` are atomic: whenever the call fails
with an error, the registry state is exactly what it was before the call
(both sources throw before any mutation). -/
theorem C8_mutators_atomic (st : RegistryState) :
    (∀ T f h nv e, (addFieldOp st T f h nv).2 = .error e → (addFieldOp st T f h nv).1 = st) ∧
    (∀ T v e, (setVersionOp st T v).2 = .error e → (setVersionOp st T v).1 = st) := by
  refine ⟨fun T f h nv e he => ?_, fun T v e he => ?_⟩
  · rcases hg : objGet st.schemas T with _ | vm
    · simp [addFieldOp, hg]
    · simp [addFieldOp, hg] at he
  · rcases hg : objGet st.schemas T with _ | vm
    · simp [setVersionOp, hg]
    · rcases hv : objGet vm v with _ | s
      · simp [setVersionOp, hg, hv]
      · simp [setVersionOp, hg, hv] at he

/-- Witness for C8: concrete failing calls (unknown table `nope`; version
`vX` never created) leave the state untouched. -/
theorem C8_witness :
    (addFieldOp stateOneField "nope" "f" "h" "v2").1 = stateOneField ∧
    (setVersionOp stateOneField "T" "vX").1 = stateOneField :=
  ⟨(C8_mutators_atomic stateOneField).1 "nope" "f" "h" "v2" _ rfl,
   (C8_mutators_atomic stateOneField).2 "T" "vX" _ rfl⟩

/-- C7: the invariant `activeVersion(table) ∈ versions(table)` (for every
table with a recorded pointer) is preserved by `addField` and `setVersion`,
whether the call succeeds or fails. -/
theorem C7_invariant_preserved (st : RegistryState) (hInv : Invariant st) :
    (∀ T f h nv, Invariant (addFieldOp st T f h nv).1) ∧
    (∀ T v, Invariant (setVersionOp st T v).1) := by
  constructor
  · intro T f h nv
    rcases hg : objGet st.schemas T with _ | vm
    · simpa [addFieldOp, hg] using hInv
    · intro T' v' hcv'
      simp only [addFieldOp, hg] at hcv' ⊢
      obtain ⟨vm', hvm', hsome⟩ := hInv T' v' hcv'
      by_cases hTT : T = T'
      · subst hTT
        rw [hg] at hvm'
        cases hvm'
        exact ⟨_, objGet_objSet_self _ _ _, objGet_objSet_isSome _ _ _ hsome⟩
      · exact ⟨vm', by rw [objGet_objSet_ne _ _ hTT]; exact hvm', hsome⟩
  · intro T v
    rcases hg : objGet st.schemas T with _ | vm
    · simpa [setVersionOp, hg] using hInv
    · rcases hv : objGet vm v with _ | s
      · simpa [setVersionOp, hg, hv] using hInv
      · intro T' v' hcv'
        simp only [setVersionOp, hg, hv] at hcv' ⊢
        by_cases hTT : T = T'
        · subst hTT
          rw [objGet_objSet_self] at hcv'
          cases hcv'
          exact ⟨vm, hg, by rw [hv]; rfl⟩
        · rw [objGet_objSet_ne _ _ hTT] at hcv'
          exact hInv T' v' hcv'

/-- Witness for C7: a concrete invariant-satisfying state stays invariant
after a fork and after a pointer switch. -/
theorem C7_witness :
    Invariant (addFieldOp stateOneField "T" "f3" "h3" "v2").1 ∧
    Invariant (setVersionOp stateOneField "T" "v1").1 := by
  have hInv : Invariant stateOneField := by
    intro T v hcv
    simp only [stateOneField, objGet] at hcv
    split at hcv
    · cases hcv
      rename_i hT
      subst hT
      exact ⟨[("v1", [("f1", "h1")])], rfl, rfl⟩
    · cases hcv
  exact ⟨(C7_invariant_preserved stateOneField hInv).1 "T" "f3" "h3" "v2",
         (C7_invariant_preserved stateOneField hInv).2 "T" "v1"⟩

/-- C6: `setVersion(table, version)` succeeds iff the table is known and
the version already exists in that table's version set (it fails with
`NotFoundError` otherwise and never creates a version: `schemas` is
unchanged in all cases); on success the active-version pointer is
reassigned to `version` and `getSchema` afterwards resolves through the
new pointer (for a nonempty version name it returns exactly the schema
stored under `version`). -/
theorem C6_setVersion_switches_pointer (st : RegistryState) (T v : String) :
    ((setVersionOp st T v).2 = .ok () ↔
      ∃ vm, objGet st.schemas T = some vm ∧ (objGet vm v).isSome) ∧
    (setVersionOp st T v).1.schemas = st.schemas ∧
    (∀ vm s, objGet st.schemas T = some vm → objGet vm v = some s →
      (setVersionOp st T v).1.currentVersions = objSet st.currentVersions T v ∧
      getSchemaFn (setVersionOp st T v).1 T = resolveActive T (some v) (some vm) ∧
      (v ≠ "" → getSchemaFn (setVersionOp st T v).1 T = .ok (some s))) := by
  refine ⟨?_, ?_, ?_⟩
  · rcases hg : objGet st.schemas T with _ | vm
    · simp [setVersionOp, hg]
    · rcases hv : objGet vm v with _ | s
      · simp [setVersionOp, hg, hv]
      · simp only [setVersionOp, hg, hv]
        constructor
        · intro _
          exact ⟨vm, rfl, by simp [hv]⟩
        · intro _
          trivial
  · rcases hg : objGet st.schemas T with _ | vm
    · simp [setVersionOp, hg]
    · rcases hv : objGet vm v with _ | s
      · simp [setVersionOp, hg, hv]
      · simp [setVersionOp, hg, hv]
  · intro vm s hvm hs
    have hset : setVersionOp st T v
        = ({ st with currentVersions := objSet st.currentVersions T v }, .ok ()) := by
      simp [setVersionOp, hvm, hs]
    rw [hset]
    refine ⟨rfl, ?_, ?_⟩
    · simp only [getSchemaFn, objGet_objSet_self, hvm]
    · intro hne
      simp only [getSchemaFn, objGet_objSet_self, hvm, resolveActive, if_neg hne, hs]

/-- Witness for C6: switching table `T` to the existing version `v1`
succeeds, reassigns the pointer, and `getSchema` then returns the schema
stored under `v1`. -/
theorem C6_witness :
    (setVersionOp stateOneField "T" "v1").1.currentVersions
      = objSet stateOneField.currentVersions "T" "v1" ∧
    getSchemaFn (setVersionOp stateOneField "T" "v1").1 "T" = .ok (some [("f1", "h1")]) := by
  have h := (C6_setVersion_switches_pointer stateOneField "T" "v1").2.2
    [("v1", [("f1", "h1")])] [("f1", "h1")] rfl rfl
  exact ⟨h.1, h.2.2 (by decide)⟩

/-- C5: `getSchema(table)` fails with `NotFoundError` exactly when the
table is unknown, no active version is recorded, or the recorded active
version is the empty string (falsy); when the recorded active version `v`
is a nonempty name and the table is known, it returns `schemas[table][v]`
without further checks — which is the stored schema whenever the
documented invariant holds.  (The un-amended claim fails because a
dangling pointer makes it return the absent value without error; see the
counterexample.) -/
theorem C5_getSchema_resolution (st : RegistryState) (T : String) :
    ((∃ e, getSchemaFn st T = .error e) ↔
      (objGet st.schemas T = none ∨ objGet st.currentVersions T = none ∨
        objGet st.currentVersions T = some "")) ∧
    (∀ v vm, objGet st.currentVersions T = some v → v ≠ "" →
      objGet st.schemas T = some vm → getSchemaFn st T = .ok (objGet vm v)) := by
  constructor
  · rcases hcv : objGet st.currentVersions T with _ | v
    · rcases hg : objGet st.schemas T with _ | vm <;>
        simp [getSchemaFn, resolveActive, hcv, hg]
    · rcases hg : objGet st.schemas T with _ | vm
      · simp [getSchemaFn, resolveActive, hcv, hg]
      · by_cases hv : v = ""
        · subst hv
          simp [getSchemaFn, resolveActive, hcv, hg]
        · simp [getSchemaFn, resolveActive, hcv, hg, hv]
  · intro v vm hcv hv hvm
    simp [getSchemaFn, resolveActive, hcv, hvm, hv]

/-- Witness for C5: on a well-formed state, `getSchema` returns the stored
schema of the active version. -/
theorem C5_witness : getSchemaFn stateOneField "T" = .ok (some [("f1", "h1")]) :=
  (C5_getSchema_resolution stateOneField "T").2 "v1" [("v1", [("f1", "h1")])]
    rfl (by decide) rfl

/-- Counterexample for C5 as frozen: in the representable state where
table `T` records active version `v2` but its version set only contains
`v1`, `getSchema` raises no error and silently returns the absent value
(JS `undefined`) — contradicting "it never silently returns an empty or
absent schema". -/
theorem C5_counterexample : getSchemaFn stateDangling "T" = Except.ok none := rfl

/-- C1 (amended): for every table with an active schema and every list of
actual headers, `detectSchemaChanges` returns exactly: `missing` = the
expected headers, in schema order, whose (verbatim) label is not among the
trimmed actual headers; `extra` = the actual headers, untrimmed and in
input order, whose trimmed form is not among the expected headers;
`hasChanges = true` iff the size of the trimmed-actual-header set differs
from the size of the expected-header set OR some trimmed actual header is
absent from the expected set (the literal two-clause OR).  In particular,
when the actual headers are a permutation of the expected headers AND
every expected header equals its own trimmed form, `hasChanges = false`
(the trim-fixedness proviso is forced by the counterexample). -/
theorem C1_detectSchemaChanges (st : RegistryState) (T : String)
    (actual expected : List String) (d : SchemaDiff)
    (hexp : getHeadersFn st T = .ok expected)
    (hd : detectSchemaChangesFn st T actual = .ok d) :
    d.missing = expected.filter (fun h => !((actual.map jsTrim).contains h)) ∧
    d.extra = actual.filter (fun h => !(expected.contains (jsTrim h))) ∧
    (d.hasChanges = true ↔
      ((actual.map jsTrim).toFinset.card ≠ expected.toFinset.card ∨
        ∃ h ∈ actual.map jsTrim, h ∉ expected)) ∧
    ((∀ e ∈ expected, jsTrim e = e) → actual.Perm expected → d.hasChanges = false) := by
  simp only [detectSchemaChangesFn, hexp] at hd
  cases hd
  refine ⟨?_, ?_, ?_, ?_⟩
  · exact List.filter_congr fun h _ => by rw [dedup_contains]
  · exact List.filter_congr fun h _ => by rw [dedup_contains]
  · simp [List.any_eq_true, List.mem_dedup, dedup_contains, contains_iff_mem,
      List.card_toFinset, bne_iff_ne]
  · intro hfix hperm
    have hAeq : actual.map jsTrim = actual :=
      map_self_of_fix fun a ha => hfix a (hperm.mem_iff.mp ha)
    have hpermA : (actual.map jsTrim).Perm expected := by rw [hAeq]; exact hperm
    have hlen : (actual.map jsTrim).dedup.length = expected.dedup.length :=
      (hpermA.dedup).length_eq
    have h2 : ((actual.map jsTrim).dedup.any fun h => !(expected.dedup.contains h)) = false := by
      rw [Bool.eq_false_iff]
      intro hc
      obtain ⟨x, hx, hpx⟩ := List.any_eq_true.mp hc
      have hxE : x ∈ expected := hpermA.mem_iff.mp (List.mem_dedup.mp hx)
      rw [dedup_contains, (contains_iff_mem _ _).mpr hxE] at hpx
      cases hpx
    dsimp only
    rw [Bool.or_eq_false_iff, bne_eq_false_iff_eq]
    exact ⟨hlen, h2⟩

/-- Witness for C1 (amended): with expected headers `[h1, h2]` (already
trimmed) and actual headers `[h2, h1]` — a permutation — the diff reports
no changes. -/
theorem C1_witness :
    detectSchemaChangesFn stateTwoFields "T" ["h2", "h1"] = .ok ⟨[], [], false⟩ ∧
    (SchemaDiff.mk [] [] false).hasChanges = false :=
  ⟨rfl, (C1_detectSchemaChanges stateTwoFields "T" ["h2", "h1"] ["h1", "h2"]
      ⟨[], [], false⟩ rfl rfl).2.2.2 (by decide) (by decide)⟩

/-- Counterexample for C1 as frozen: for the active schema `{f: " x "}`
the expected headers are `[" x "]`; the actual headers `[" x "]` are a
permutation of them (the identity), yet `hasChanges = true`, because the
actual side is trimmed to `"x"` while the expected side keeps the padded
label `" x "`.  (Also: that lone header is simultaneously reported both
`missing` and `extra`.) -/
theorem C1_counterexample :
    List.Perm [" x "] [" x "] ∧
    getHeadersFn statePaddedHeader "T" = .ok [" x "] ∧
    detectSchemaChangesFn statePaddedHeader "T" [" x "] = .ok ⟨[" x "], [" x "], true⟩ :=
  ⟨List.Perm.refl _, rfl, rfl⟩

/-- C2 (amended): provided the active schema has pairwise-distinct field
names, pairwise-distinct header labels and no empty field name, and the
trimmed actual headers are pairwise distinct, `mapRowToObject` returns the
mapping that contains `field → rowValues[i]` exactly when the trimmed
header at position `i` is the (verbatim) header label of `field` in the
active schema and `rowValues[i]` is present (`some v`, where an explicit
empty string is `some ""`); headers not belonging to the schema are
silently ignored and no error is raised for missing or extra headers.
Without the distinctness provisos the claim fails: a later position
overwrites an earlier one bound to the same field (see the
counterexample). -/
theorem C2_mapRowToObject (st : RegistryState) (T : String) (schema : Schema)
    (headers : List String) (rowData : List (Option String))
    (hs : getSchemaFn st T = .ok (some schema))
    (hfields : (schema.map Prod.fst).Nodup)
    (hlabels : (schema.map Prod.snd).Nodup)
    (hnoempty : ∀ fh ∈ schema, fh.1 ≠ "")
    (hheaders : (headers.map jsTrim).Nodup)
    (M : List (String × String))
    (hM : mapRowToObjectFn st T headers rowData = .ok M) :
    ∀ f v, objGet M f = some v ↔
      ∃ j hdr, headers.get? j = some hdr ∧ (f, jsTrim hdr) ∈ schema ∧
        jsIndex rowData j = some v := by
  simp only [mapRowToObjectFn, hs] at hM
  cases hM
  intro f v
  have hrevinj : ∀ a b g, objGet (reverseSchemaOf (some schema)) a = some g →
      objGet (reverseSchemaOf (some schema)) b = some g → a = b := by
    intro a b g h1 h2
    exact value_eq_of_mem_of_nodupKeys hfields
      ((objGet_reverse_iff hlabels a g).mp h1) ((objGet_reverse_iff hlabels b g).mp h2)
  rw [mapRowGo_objGet (reverseSchemaOf (some schema)) rowData hrevinj headers 0 []
    hheaders (fun _ _ _ _ _ => rfl) f v]
  constructor
  · rintro (h | ⟨j, hdr, hj, h1, _, h3⟩)
    · simp [objGet] at h
    · exact ⟨j, hdr, hj, (objGet_reverse_iff hlabels _ _).mp h1,
        by rw [← Nat.zero_add j]; exact h3⟩
  · rintro ⟨j, hdr, hj, hmem, h3⟩
    exact Or.inr ⟨j, hdr, hj, (objGet_reverse_iff hlabels _ _).mpr hmem,
      hnoempty _ hmem, by rw [Nat.zero_add]; exact h3⟩

/-- Witness for C2 (amended): the spec's round-trip — schema
`{f1: h1, f2: h2}`, headers `[h1, h2]`, row `[v1, v2]` yields
`{f1: v1, f2: v2}`. -/
theorem C2_witness :
    objGet [("f1", "v1"), ("f2", "v2")] "f1" = some "v1" ∧
    objGet [("f1", "v1"), ("f2", "v2")] "f2" = some "v2" := by
  have h := C2_mapRowToObject stateTwoFields "T" [("f1", "h1"), ("f2", "h2")]
      ["h1", "h2"] [some "v1", some "v2"] rfl (by decide) (by decide) (by decide)
      (by decide) [("f1", "v1"), ("f2", "v2")] rfl
  exact ⟨(h "f1" "v1").mpr ⟨0, "h1", rfl, by decide, rfl⟩,
         (h "f2" "v2").mpr ⟨1, "h2", rfl, by decide, rfl⟩⟩

/-- Counterexample for C2 as frozen: schema `{f1: "h1"}`, duplicate actual
headers `["h1", "h1"]`, row `[v1, v2]`.  At position 0 the claim's
condition holds (the trimmed header `"h1"` is `f1`'s label and
`rowValues[0] = "v1"` is present), so the claimed mapping must contain
`f1 → "v1"` — but the loop's later assignment wins and the result binds
`f1 → "v2"`. -/
theorem C2_counterexample :
    mapRowToObjectFn stateOneField "T" ["h1", "h1"] [some "v1", some "v2"]
      = .ok [("f1", "v2")] ∧
    jsTrim "h1" = "h1" ∧
    ("f1", "h1") ∈ ([("f1", "h1")] : Schema) ∧
    jsIndex [some "v1", some "v2"] 0 = some "v1" ∧
    objGet [("f1", "v2")] "f1" ≠ some "v1" :=
  ⟨rfl, rfl, by decide, rfl, by decide⟩

/-- C4 (amended): the header→field reverse lookup built by
`_getReverseSchema` maps each schema header label VERBATIM — without
trimming — to its field: with distinct labels, a lookup key resolves to
field `f` iff the key equals `f`'s exact (untrimmed) label.  Only the
actual header is trimmed (by `mapRowToObject`) before the lookup, so
actual headers with surrounding whitespace map identically to their
trimmed forms; but a schema label carrying surrounding whitespace is NOT
matched by the bare actual header — the spec's claim of trimming on the
expected side does not hold in the code (see the counterexample). -/
theorem C4_reverse_lookup_verbatim (schema : Schema)
    (hlabels : (schema.map Prod.snd).Nodup) :
    (∀ f key, objGet (reverseSchemaOf (some schema)) key = some f ↔ (f, key) ∈ schema) ∧
    (∀ a b, jsTrim a = jsTrim b →
      objGet (reverseSchemaOf (some schema)) (jsTrim a)
        = objGet (reverseSchemaOf (some schema)) (jsTrim b)) :=
  ⟨fun f key => objGet_reverse_iff hlabels key f, fun _ _ he => by rw [he]⟩

/-- Witness for C4 (amended): for schema `{f1: " h1 "}` the reverse lookup
succeeds exactly at the verbatim padded key `" h1 "`. -/
theorem C4_witness :
    objGet (reverseSchemaOf (some [("f1", " h1 ")])) " h1 " = some "f1" :=
  ((C4_reverse_lookup_verbatim [("f1", " h1 ")] (by decide)).1 "f1" " h1 ").mpr (by decide)

/-- Counterexample for C4 as frozen: schema `{f1: " h1 "}` whose label
carries surrounding whitespace, actual header `"h1"`.  The trimmed forms
of label and actual header agree (`"h1"`), so under the claim the row
value must map to `f1` — but the code builds the reverse lookup with the
untrimmed key `" h1 "`, the lookup of `"h1"` misses, and the result is
empty. -/
theorem C4_counterexample :
    jsTrim " h1 " = jsTrim "h1" ∧
    mapRowToObjectFn statePaddedLabel "T" ["h1"] [some "v"] = .ok [] :=
  ⟨by decide, rfl⟩

/-- C3: for every table with an active schema `s` (active version `v`,
nonempty) and every fresh nonempty version name `v2`, `addField` copies
the active schema, adds the new field, stores the copy under `v2`, and
leaves the active-version pointer untouched: `getHeaders` still returns
the old headers, unchanged, until `setVersion(T, v2)` succeeds, after
which `getHeaders` includes the new header label. -/
theorem C3_fork_then_activate (st : RegistryState) (T f3 h3 v2 v : String)
    (vm : List (String × Schema)) (s : Schema)
    (hvm : objGet st.schemas T = some vm)
    (hcv : objGet st.currentVersions T = some v)
    (hv : v ≠ "") (hs : objGet vm v = some s)
    (hfresh : objGet vm v2 = none) (hv2 : v2 ≠ "") :
    (addFieldOp st T f3 h3 v2).2 = .ok () ∧
    (addFieldOp st T f3 h3 v2).1.currentVersions = st.currentVersions ∧
    objGet (addFieldOp st T f3 h3 v2).1.schemas T = some (objSet vm v2 (objSet s f3 h3)) ∧
    getHeadersFn (addFieldOp st T f3 h3 v2).1 T = getHeadersFn st T ∧
    getHeadersFn st T = .ok (s.map Prod.snd) ∧
    (setVersionOp (addFieldOp st T f3 h3 v2).1 T v2).2 = .ok () ∧
    getHeadersFn (setVersionOp (addFieldOp st T f3 h3 v2).1 T v2).1 T
      = .ok ((objSet s f3 h3).map Prod.snd) ∧
    h3 ∈ (objSet s f3 h3).map Prod.snd := by
  have hvv2 : v ≠ v2 := by
    intro he
    rw [he, hfresh] at hs
    cases hs
  have hA : addFieldOp st T f3 h3 v2
      = ({ st with schemas := objSet st.schemas T (objSet vm v2 (objSet s f3 h3)) }, .ok ()) := by
    simp [addFieldOp, hvm, hcv, hs]
  have hold : getHeadersFn st T = .ok (s.map Prod.snd) := by
    simp [getHeadersFn, getSchemaFn, resolveActive, hcv, hvm, hv, hs]
  have hnew : getHeadersFn (addFieldOp st T f3 h3 v2).1 T = .ok (s.map Prod.snd) := by
    rw [hA]
    simp [getHeadersFn, getSchemaFn, resolveActive, hcv, hv, objGet_objSet_self,
      objGet_objSet_ne vm (objSet s f3 h3) (Ne.symm hvv2), hs]
  have hB : setVersionOp (addFieldOp st T f3 h3 v2).1 T v2
      = ({ (addFieldOp st T f3 h3 v2).1 with
            currentVersions := objSet st.currentVersions T v2 }, .ok ()) := by
    rw [hA]
    simp [setVersionOp, objGet_objSet_self]
  refine ⟨by rw [hA], by rw [hA], by rw [hA]; exact objGet_objSet_self _ _ _,
    by rw [hnew, hold], hold, by rw [hB], ?_, ?_⟩
  · rw [hB, hA]
    simp [getHeadersFn, getSchemaFn, resolveActive, objGet_objSet_self, hv2]
  · exact List.mem_map.mpr ⟨(f3, h3), mem_objSet_self _ _ _, rfl⟩

/-- Witness for C3: forking `v2` from `{f1: "h1"}` leaves `getHeaders` at
`["h1"]`; after activating `v2` it returns `["h1", "h3"]`. -/
theorem C3_witness :
    getHeadersFn (addFieldOp stateOneField "T" "f3" "h3" "v2").1 "T" = .ok ["h1"] ∧
    getHeadersFn (setVersionOp (addFieldOp stateOneField "T" "f3" "h3" "v2").1 "T" "v2").1 "T"
      = .ok ["h1", "h3"] := by
  have h := C3_fork_then_activate stateOneField "T" "f3" "h3" "v2" "v1"
      [("v1", [("f1", "h1")])] [("f1", "h1")] rfl rfl (by decide) rfl rfl (by decide)
  exact ⟨by rw [h.2.2.2.1, h.2.2.2.2.1]; rfl, by rw [h.2.2.2.2.2.2.1]; rfl⟩

/-- C9: calling `addField` with `newVersion` equal to the currently active
version replaces the schema stored under the active version by the
extended copy in place: the call succeeds, the pointer is unchanged, the
version-map entry at `v` is now the extended schema (so the previous
contents of that version are no longer addressable), and `getSchema` /
`getHeaders` immediately reflect the added field without any `setVersion`
call. -/
theorem C9_addField_overwrites_active (st : RegistryState) (T v f h : String)
    (vm : List (String × Schema)) (s : Schema)
    (hvm : objGet st.schemas T = some vm)
    (hcv : objGet st.currentVersions T = some v)
    (hv : v ≠ "") (hs : objGet vm v = some s) :
    (addFieldOp st T f h v).2 = .ok () ∧
    (addFieldOp st T f h v).1.currentVersions = st.currentVersions ∧
    objGet (addFieldOp st T f h v).1.schemas T = some (objSet vm v (objSet s f h)) ∧
    objGet (objSet vm v (objSet s f h)) v = some (objSet s f h) ∧
    getSchemaFn (addFieldOp st T f h v).1 T = .ok (some (objSet s f h)) ∧
    getHeadersFn (addFieldOp st T f h v).1 T = .ok ((objSet s f h).map Prod.snd) ∧
    h ∈ (objSet s f h).map Prod.snd := by
  have hA : addFieldOp st T f h v
      = ({ st with schemas := objSet st.schemas T (objSet vm v (objSet s f h)) }, .ok ()) := by
    simp [addFieldOp, hvm, hcv, hs]
  have hg : getSchemaFn (addFieldOp st T f h v).1 T = .ok (some (objSet s f h)) := by
    rw [hA]
    simp [getSchemaFn, resolveActive, hcv, hv, objGet_objSet_self]
  refine ⟨by rw [hA], by rw [hA], by rw [hA]; exact objGet_objSet_self _ _ _,
    objGet_objSet_self _ _ _, hg, ?_, ?_⟩
  · simp [getHeadersFn, hg]
  · exact List.mem_map.mpr ⟨(f, h), mem_objSet_self _ _ _, rfl⟩

/-- Witness for C9: extending `{f1: "h1"}` in place under its own active
version `v1` makes the new header visible immediately. -/
theorem C9_witness :
    getHeadersFn (addFieldOp stateOneField "T" "f3" "h3" "v1").1 "T" = .ok ["h1", "h3"] ∧
    (addFieldOp stateOneField "T" "f3" "h3" "v1").1.currentVersions
      = stateOneField.currentVersions := by
  have h := C9_addField_overwrites_active stateOneField "T" "v1" "f3" "h3"
      [("v1", [("f1", "h1")])] [("f1", "h1")] rfl rfl (by decide) rfl
  exact ⟨by rw [h.2.2.2.2.2.1]; rfl, h.2.1⟩

end SchemaService
